import Mathlib

/-!
Shallow embedding of the `atom_model` demo (src/atom_model/src/main.rs):
the orbit integrator, tilt oscillator, trace buffer, fly-camera controller
and grid toggle, with `f32` scalars modelled as real numbers and the
engine's `Vec3`/`Quat` operations spelled out by their glam formulas.
-/

namespace AtomModel

/-- 3D vector with real components, modelling the engine's `Vec3`
(`f32` components modelled as reals). -/
@[ext]
structure Vec3 where
  x : ℝ
  y : ℝ
  z : ℝ

namespace Vec3

/-- Componentwise addition (`Vec3 + Vec3`). -/
def add (a b : Vec3) : Vec3 := ⟨a.x + b.x, a.y + b.y, a.z + b.z⟩

/-- Componentwise subtraction (`Vec3 - Vec3`). -/
def sub (a b : Vec3) : Vec3 := ⟨a.x - b.x, a.y - b.y, a.z - b.z⟩

/-- Scalar multiplication (`Vec3 * f32`). -/
def smul (v : Vec3) (c : ℝ) : Vec3 := ⟨v.x * c, v.y * c, v.z * c⟩

/-- Dot product. -/
def dot (a b : Vec3) : ℝ := a.x * b.x + a.y * b.y + a.z * b.z

/-- Cross product. -/
def cross (a b : Vec3) : Vec3 :=
  ⟨a.y * b.z - a.z * b.y, a.z * b.x - a.x * b.z, a.x * b.y - a.y * b.x⟩

/-- `Vec3::ZERO`. -/
def zero : Vec3 := ⟨0, 0, 0⟩

/-- `Vec3::length_squared`. -/
def lengthSquared (v : Vec3) : ℝ := dot v v

/-- `Vec3::normalize`: divide by the length. -/
noncomputable def normalize (v : Vec3) : Vec3 :=
  v.smul (1 / Real.sqrt (lengthSquared v))

end Vec3

/-- Quaternion `(x, y, z, w)`, modelling the engine's `Quat`. -/
@[ext]
structure Quat where
  x : ℝ
  y : ℝ
  z : ℝ
  w : ℝ

namespace Quat

/-- Hamilton product (`Quat * Quat` in glam). -/
def mul (a b : Quat) : Quat :=
  ⟨a.w * b.x + a.x * b.w + a.y * b.z - a.z * b.y,
   a.w * b.y - a.x * b.z + a.y * b.w + a.z * b.x,
   a.w * b.z + a.x * b.y - a.y * b.x + a.z * b.w,
   a.w * b.w - a.x * b.x - a.y * b.y - a.z * b.z⟩

/-- `Quat::from_axis_angle` for a unit axis: `(axis * sin(θ/2), cos(θ/2))`. -/
noncomputable def fromAxisAngle (axis : Vec3) (angle : ℝ) : Quat :=
  ⟨axis.x * Real.sin (angle / 2), axis.y * Real.sin (angle / 2),
   axis.z * Real.sin (angle / 2), Real.cos (angle / 2)⟩

/-- Rotate a vector by a unit quaternion (`Quat * Vec3`, glam `mul_vec3`):
`v*(w² - b·b) + b*(2 v·b) + (b × v)*(2 w)` with `b` the vector part. -/
def rotate (q : Quat) (v : Vec3) : Vec3 :=
  let b : Vec3 := ⟨q.x, q.y, q.z⟩
  ((v.smul (q.w * q.w - Vec3.dot b b)).add
    (b.smul (Vec3.dot v b * 2))).add
    ((Vec3.cross b v).smul (q.w * 2))

end Quat

/-- The `ElectronTrace` resource: a growable array of points plus capacity. -/
structure ElectronTrace where
  points : List Vec3
  max_points : ℕ

/-- One trace push as performed each tick by `orbit_electron_system`
(main.rs lines 147-150): `points.push(pos); if points.len() > max_points
{ points.remove(0); }`. -/
def tracePush (t : ElectronTrace) (p : Vec3) : ElectronTrace :=
  let pts := t.points ++ [p]
  if pts.length > t.max_points then { t with points := pts.eraseIdx 0 }
  else { t with points := pts }

/-- A sequence of pushes, oldest first. -/
def pushAll (t : ElectronTrace) (ps : List Vec3) : ElectronTrace :=
  ps.foldl tracePush t

/-- `let radius = 2.0` in `orbit_electron_system`. -/
def orbitRadius : ℝ := 2

/-- `let speed = 1.0` in `orbit_electron_system`. -/
def orbitSpeed : ℝ := 1

/-- The state read and written by `orbit_electron_system`: the `OrbitAngle`
resource, the `ElectronTrace` resource and the electron's translation. -/
structure OrbitState where
  angle : ℝ
  trace : ElectronTrace
  translation : Vec3

/-- One tick of `orbit_electron_system` (main.rs lines 125-154): advance the
angle by `speed * dt`, place the electron on the circle of radius 2 in the
XZ plane, rotate by the tilt quaternion about Z, push the position into the
trace and write it to the transform. -/
noncomputable def orbit_electron_system (dt tilt : ℝ) (s : OrbitState) : OrbitState :=
  let angle := s.angle + orbitSpeed * dt
  let x := orbitRadius * Real.cos angle
  let z := orbitRadius * Real.sin angle
  let pos : Vec3 := ⟨x, 0, z⟩
  let tilt_quat := Quat.fromAxisAngle ⟨0, 0, 1⟩ tilt
  let pos := Quat.rotate tilt_quat pos
  { angle := angle, trace := tracePush s.trace pos, translation := pos }

/-- Iterated orbit ticks; each list entry is `(delta_secs, tilt)`. -/
noncomputable def orbitRun (s : OrbitState) (ticks : List (ℝ × ℝ)) : OrbitState :=
  ticks.foldl (fun s t => orbit_electron_system t.1 t.2 s) s

/-- `let tilt_amplitude = 1.0` in `orbit_tilt_control`. -/
def tiltAmplitude : ℝ := 1

/-- `let tilt_speed = 0.1` in `orbit_tilt_control`. -/
noncomputable def tiltSpeed : ℝ := 0.1

/-- One tick of `orbit_tilt_control` (main.rs lines 156-164):
`tilt = tilt_amplitude * sin(elapsed * tilt_speed)`. -/
noncomputable def orbit_tilt_control (elapsed : ℝ) : ℝ :=
  tiltAmplitude * Real.sin (elapsed * tiltSpeed)

/-- Rotation by `t` radians about the Z axis, written as the spec states it
(the rotation matrix applied to the vector); used to compare with the
quaternion rotation the code performs. -/
noncomputable def rotZ (t : ℝ) (v : Vec3) : Vec3 :=
  ⟨v.x * Real.cos t - v.y * Real.sin t, v.x * Real.sin t + v.y * Real.cos t, v.z⟩

/-- The `Grid` component. -/
structure Grid where
  enabled : Bool
  size : ℤ
  cell_size : ℝ

/-- The state mutation of one tick of the `grid` system (main.rs lines
184-186): flip `enabled` on a just-pressed edge of the toggle key, else
leave the grid alone.  (The gizmo drawing has no effect on state.) -/
def gridTick (spaceJustPressed : Bool) (g : Grid) : Grid :=
  if spaceJustPressed then { g with enabled := !g.enabled } else g

/-- The engine's edge detection: given the key-down state before the first
tick and the key-down state at each tick, `just_pressed` holds at a tick
exactly when the key is down now and was up at the previous tick. -/
def justPressedSeq (prev : Bool) : List Bool → List Bool
  | [] => []
  | d :: ds => (d && !prev) :: justPressedSeq d ds

/-- Run the grid system over a history of key-down states. -/
def gridRun (prev : Bool) (downs : List Bool) (g : Grid) : Grid :=
  (justPressedSeq prev downs).foldl (fun g jp => gridTick jp g) g

/-- The ten keys read by `fly_camera_controller`. -/
structure CamKeys where
  arrowLeft : Bool
  arrowRight : Bool
  arrowUp : Bool
  arrowDown : Bool
  keyW : Bool
  keyS : Bool
  keyA : Bool
  keyD : Bool
  keyQ : Bool
  keyE : Bool

/-- A transform: translation plus rotation quaternion. -/
structure Transform3 where
  translation : Vec3
  rotation : Quat

/-- The `FlyCamera` component. -/
structure FlyCamera where
  yaw : ℝ
  pitch : ℝ

/-- Rust `f32::clamp(lo, hi)`: `lo` if below, `hi` if above, else the input. -/
noncomputable def clampR (lo hi x : ℝ) : ℝ :=
  if x < lo then lo else if hi < x then hi else x

/-- `let speed = 5.0` in `fly_camera_controller`. -/
def camSpeed : ℝ := 5

/-- `let rot_speed = 1.5` in `fly_camera_controller`. -/
noncomputable def camRotSpeed : ℝ := 1.5

/-- Bevy `Transform::forward()`: local `-Z` rotated into world space. -/
noncomputable def fwdVec (rotation : Quat) : Vec3 := Quat.rotate rotation ⟨0, 0, -1⟩

/-- Bevy `Transform::right()`: local `+X` rotated into world space. -/
noncomputable def rightVec (rotation : Quat) : Vec3 := Quat.rotate rotation ⟨1, 0, 0⟩

/-- One tick of `fly_camera_controller` (main.rs lines 203-259): integrate
yaw/pitch from the arrow keys, clamp pitch to `[-1.54, 1.54]`, recompute
the rotation as yaw about Y composed with pitch about X, accumulate a
movement direction from WASDQE scaled by `dt`, and if it is nonzero move
the translation by `direction.normalize() * speed * dt`. -/
noncomputable def fly_camera_controller (dt : ℝ) (keys : CamKeys)
    (tr : Transform3) (cam : FlyCamera) : Transform3 × FlyCamera :=
  let yaw := if keys.arrowLeft then cam.yaw + camRotSpeed * dt else cam.yaw
  let yaw := if keys.arrowRight then yaw - camRotSpeed * dt else yaw
  let pitch := if keys.arrowUp then cam.pitch + camRotSpeed * dt else cam.pitch
  let pitch := if keys.arrowDown then pitch - camRotSpeed * dt else pitch
  let pitch := clampR (-1.54) 1.54 pitch
  let rotation :=
    Quat.mul (Quat.fromAxisAngle ⟨0, 1, 0⟩ yaw) (Quat.fromAxisAngle ⟨1, 0, 0⟩ pitch)
  let dir := Vec3.zero
  let dir := if keys.keyW then dir.add ((fwdVec rotation).smul dt) else dir
  let dir := if keys.keyS then dir.sub ((fwdVec rotation).smul dt) else dir
  let dir := if keys.keyA then dir.sub ((rightVec rotation).smul dt) else dir
  let dir := if keys.keyD then dir.add ((rightVec rotation).smul dt) else dir
  let dir := if keys.keyQ then dir.add ((Vec3.mk 0 1 0).smul dt) else dir
  let dir := if keys.keyE then dir.sub ((Vec3.mk 0 1 0).smul dt) else dir
  let translation :=
    if dir.lengthSquared > 0 then
      tr.translation.add ((dir.normalize.smul camSpeed).smul dt)
    else tr.translation
  (⟨translation, rotation⟩, ⟨yaw, pitch⟩)

/-- Iterated camera ticks; each list entry is `(delta_secs, keys)`. -/
noncomputable def camRun (s : Transform3 × FlyCamera) (inputs : List (ℝ × CamKeys)) :
    Transform3 × FlyCamera :=
  inputs.foldl (fun s i => fly_camera_controller i.1 i.2 s.1 s.2) s

/-- All mutable state touched by the four per-tick systems. -/
structure World where
  angle : ℝ
  tilt : ℝ
  trace : ElectronTrace
  electron : Vec3
  camera : Transform3
  fly : FlyCamera
  grid : Grid

/-- Per-tick input: key-down states and the toggle key's just-pressed edge. -/
structure WorldInput where
  keys : CamKeys
  spaceJustPressed : Bool

/-- One frame: run the grid system, the fly-camera controller, the orbit
integrator and the tilt oscillator (the registration order in `main`). -/
noncomputable def worldTick (dt elapsed : ℝ) (inp : WorldInput) (w : World) : World :=
  let g := gridTick inp.spaceJustPressed w.grid
  let cam := fly_camera_controller dt inp.keys w.camera w.fly
  let os := orbit_electron_system dt w.tilt ⟨w.angle, w.trace, w.electron⟩
  { angle := os.angle, tilt := orbit_tilt_control elapsed, trace := os.trace,
    electron := os.translation, camera := cam.1, fly := cam.2, grid := g }

/-! ### Trace buffer lemmas -/

theorem eraseIdx_zero_eq_tail {α : Type} (l : List α) : l.eraseIdx 0 = l.tail := by
  cases l <;> rfl

theorem tracePush_max_points (t : ElectronTrace) (p : Vec3) :
    (tracePush t p).max_points = t.max_points := by
  simp only [tracePush]
  split <;> rfl

theorem tracePush_points_of_gt (t : ElectronTrace) (p : Vec3)
    (h : t.points.length + 1 > t.max_points) :
    (tracePush t p).points = (t.points ++ [p]).tail := by
  simp only [tracePush]
  rw [if_pos (by simpa using h)]
  exact eraseIdx_zero_eq_tail _

theorem tracePush_points_of_le (t : ElectronTrace) (p : Vec3)
    (h : t.points.length + 1 ≤ t.max_points) :
    (tracePush t p).points = t.points ++ [p] := by
  simp only [tracePush]
  rw [if_neg (by simp; omega)]

theorem tracePush_length_le (t : ElectronTrace) (p : Vec3)
    (h : t.points.length ≤ t.max_points) :
    (tracePush t p).points.length ≤ t.max_points := by
  by_cases hc : t.points.length + 1 > t.max_points
  · rw [tracePush_points_of_gt t p hc]
    simp [List.length_tail]
    omega
  · rw [tracePush_points_of_le t p (by omega)]
    simp
    omega

theorem pushAll_max_points (ps : List Vec3) : ∀ t : ElectronTrace,
    (pushAll t ps).max_points = t.max_points := by
  induction ps with
  | nil => intro t; rfl
  | cons p ps ih =>
    intro t
    have step : pushAll t (p :: ps) = pushAll (tracePush t p) ps := rfl
    rw [step, ih, tracePush_max_points]

theorem pushAll_length_le (ps : List Vec3) : ∀ t : ElectronTrace,
    t.points.length ≤ t.max_points →
    (pushAll t ps).points.length ≤ t.max_points := by
  induction ps with
  | nil => intro t ht; exact ht
  | cons p ps ih =>
    intro t ht
    have step : pushAll t (p :: ps) = pushAll (tracePush t p) ps := rfl
    rw [step]
    have h1 := tracePush_length_le t p ht
    have h2 := ih (tracePush t p) (by rw [tracePush_max_points]; exact h1)
    rwa [tracePush_max_points] at h2

theorem pushAll_points_drop (ps : List Vec3) : ∀ t : ElectronTrace,
    t.points.length ≤ t.max_points →
    (pushAll t ps).points =
      (t.points ++ ps).drop (t.points.length + ps.length - t.max_points) := by
  induction ps with
  | nil =>
    intro t ht
    have h0 : t.points.length - t.max_points = 0 := by omega
    simp [pushAll, h0]
  | cons p ps ih =>
    intro t ht
    have step : pushAll t (p :: ps) = pushAll (tracePush t p) ps := rfl
    rw [step, ih (tracePush t p)
      (by rw [tracePush_max_points]; exact tracePush_length_le t p ht),
      tracePush_max_points]
    by_cases hc : t.points.length + 1 > t.max_points
    · have hNe : t.points.length = t.max_points := by omega
      rw [tracePush_points_of_gt t p hc]
      cases hpt : t.points with
      | nil =>
        have hN0 : t.max_points = 0 := by rw [hpt] at hNe; simpa using hNe.symm
        simp [hpt, hN0, List.drop_length]
      | cons a rest =>
        have hlenN : rest.length + 1 = t.max_points := by
          rw [hpt] at hNe; simpa using hNe
        rw [show ((a :: rest : List Vec3) ++ [p]).tail = rest ++ [p] from rfl]
        have dL : (rest ++ [p]).length + ps.length - t.max_points = ps.length := by
          simp
          omega
        have dR : ((a :: rest : List Vec3)).length + (p :: ps).length -
            t.max_points = ps.length + 1 := by
          simp
          omega
        rw [dL, dR]
        rw [show ((a :: rest : List Vec3)) ++ (p :: ps) = a :: (rest ++ (p :: ps))
          from rfl]
        rw [List.drop_succ_cons]
        rw [show ((rest ++ [p]) ++ ps : List Vec3) = rest ++ (p :: ps) by simp]
    · rw [tracePush_points_of_le t p (by omega)]
      congr 1
      · simp
        omega
      · simp [List.append_assoc]

/-- Claim C1: starting from the empty trace with capacity `N`, the buffer
length never exceeds `N` along any push sequence, and after `N + k` pushes
(`k > 0`) the buffer holds exactly the last `N` pushed points in push order
(one oldest point evicted per overflowing push). -/
theorem trace_buffer_capacity (N k : ℕ) (ps : List Vec3)
    (hlen : ps.length = N + k) (hk : 0 < k) :
    (∀ m : ℕ, (pushAll ⟨[], N⟩ (ps.take m)).points.length ≤ N) ∧
    (pushAll ⟨[], N⟩ ps).points = ps.drop k := by
  constructor
  · intro m
    exact pushAll_length_le (ps.take m) ⟨[], N⟩ (by simp)
  · have h := pushAll_points_drop ps ⟨[], N⟩ (by simp)
    have hd : ps.length - N = k := by omega
    simpa [hd] using h

/-- Witness for C1: pushing `(0,0,0)`, `(1,0,0)`, `(2,0,0)` into an empty
trace of capacity 2 leaves exactly `[(1,0,0), (2,0,0)]`. -/
theorem trace_buffer_capacity_witness :
    ([Vec3.mk 0 0 0, Vec3.mk 1 0 0, Vec3.mk 2 0 0] : List Vec3).length = 2 + 1 ∧
    0 < 1 ∧
    (pushAll ⟨[], 2⟩ [Vec3.mk 0 0 0, Vec3.mk 1 0 0, Vec3.mk 2 0 0]).points =
      [Vec3.mk 1 0 0, Vec3.mk 2 0 0] := by
  refine ⟨by simp, by simp, ?_⟩
  have h := (trace_buffer_capacity 2 1 [Vec3.mk 0 0 0, Vec3.mk 1 0 0, Vec3.mk 2 0 0]
    (by simp) (by simp)).2
  simpa using h

/-! ### Orbit integrator lemmas -/

theorem orbit_angle_step (dt tilt : ℝ) (s : OrbitState) :
    (orbit_electron_system dt tilt s).angle = s.angle + orbitSpeed * dt := rfl

theorem orbitRun_angle (ticks : List (ℝ × ℝ)) : ∀ s : OrbitState,
    (orbitRun s ticks).angle =
      s.angle + (ticks.map (fun x => orbitSpeed * x.1)).sum := by
  induction ticks with
  | nil => intro s; simp [orbitRun]
  | cons t ts ih =>
    intro s
    have step : orbitRun s (t :: ts) = orbitRun (orbit_electron_system t.1 t.2 s) ts :=
      rfl
    rw [step, ih, orbit_angle_step]
    simp
    ring

/-- Claim C4: over any tick sequence with nonnegative delta times the orbit
angle is non-decreasing, and after the whole sequence it equals its initial
value plus the sum of `speed * dt` over all ticks (no wraparound). -/
theorem orbit_angle_sum (ticks : List (ℝ × ℝ)) (s : OrbitState)
    (h : ∀ x ∈ ticks, 0 ≤ x.1) :
    (orbitRun s ticks).angle =
      s.angle + (ticks.map (fun x => orbitSpeed * x.1)).sum ∧
    ∀ n : ℕ, (orbitRun s (ticks.take n)).angle ≤
      (orbitRun s (ticks.take (n + 1))).angle := by
  refine ⟨orbitRun_angle ticks s, ?_⟩
  intro n
  by_cases hn : n < ticks.length
  · have ht : ticks.take (n + 1) = ticks.take n ++ [ticks[n]] := by
      rw [List.take_succ, List.getElem?_eq_getElem hn]
      simp
    rw [ht]
    have happ : orbitRun s (ticks.take n ++ [ticks[n]]) =
        orbit_electron_system ticks[n].1 ticks[n].2 (orbitRun s (ticks.take n)) := by
      simp only [orbitRun, List.foldl_append, List.foldl_cons, List.foldl_nil]
    rw [happ, orbit_angle_step]
    have hd : 0 ≤ ticks[n].1 := h _ (List.getElem_mem hn)
    have hmul : 0 ≤ orbitSpeed * ticks[n].1 :=
      mul_nonneg (by norm_num [orbitSpeed]) hd
    linarith
  · rw [List.take_of_length_le (by omega), List.take_of_length_le (by omega)]

/-- Witness for C4: two ticks with `dt = 1` and `dt = 2`. -/
theorem orbit_angle_sum_witness :
    (∀ x ∈ ([((1 : ℝ), (0 : ℝ)), ((2 : ℝ), (0 : ℝ))] : List (ℝ × ℝ)), 0 ≤ x.1) ∧
    ((orbitRun ⟨0, ⟨[], 5000⟩, ⟨2, 0, 0⟩⟩
        [((1 : ℝ), (0 : ℝ)), ((2 : ℝ), (0 : ℝ))]).angle =
      (0 : ℝ) + (([((1 : ℝ), (0 : ℝ)), ((2 : ℝ), (0 : ℝ))] : List (ℝ × ℝ)).map
        (fun x => orbitSpeed * x.1)).sum ∧
    ∀ n : ℕ,
      (orbitRun ⟨0, ⟨[], 5000⟩, ⟨2, 0, 0⟩⟩
        (([((1 : ℝ), (0 : ℝ)), ((2 : ℝ), (0 : ℝ))] : List (ℝ × ℝ)).take n)).angle ≤
      (orbitRun ⟨0, ⟨[], 5000⟩, ⟨2, 0, 0⟩⟩
        (([((1 : ℝ), (0 : ℝ)), ((2 : ℝ), (0 : ℝ))] : List (ℝ × ℝ)).take (n + 1))).angle) := by
  have hh : ∀ x ∈ ([((1 : ℝ), (0 : ℝ)), ((2 : ℝ), (0 : ℝ))] : List (ℝ × ℝ)), 0 ≤ x.1 := by
    intro x hx
    simp at hx
    rcases hx with rfl | rfl <;> norm_num
  exact ⟨hh, orbit_angle_sum _ _ hh⟩

/-! ### The quaternion rotation about Z equals the Z-rotation matrix -/

theorem rotate_fromAxisAngle_z (t : ℝ) (v : Vec3) :
    Quat.rotate (Quat.fromAxisAngle ⟨0, 0, 1⟩ t) v = rotZ t v := by
  have h2 : t / 2 + t / 2 = t := by ring
  have hc : Real.cos t =
      Real.cos (t / 2) * Real.cos (t / 2) - Real.sin (t / 2) * Real.sin (t / 2) := by
    conv_lhs => rw [← h2]
    rw [Real.cos_add]
  have hs : Real.sin t =
      Real.sin (t / 2) * Real.cos (t / 2) + Real.cos (t / 2) * Real.sin (t / 2) := by
    conv_lhs => rw [← h2]
    rw [Real.sin_add]
  have hsc : Real.sin (t / 2) * Real.sin (t / 2) +
      Real.cos (t / 2) * Real.cos (t / 2) = 1 := by
    have h := Real.sin_sq_add_cos_sq (t / 2)
    linear_combination h
  apply Vec3.ext
  · simp [Quat.rotate, Quat.fromAxisAngle, rotZ, Vec3.smul, Vec3.dot, Vec3.cross,
      Vec3.add]
    linear_combination (-v.x) * hc + v.y * hs
  · simp [Quat.rotate, Quat.fromAxisAngle, rotZ, Vec3.smul, Vec3.dot, Vec3.cross,
      Vec3.add]
    linear_combination (-v.y) * hc - v.x * hs
  · simp [Quat.rotate, Quat.fromAxisAngle, rotZ, Vec3.smul, Vec3.dot, Vec3.cross,
      Vec3.add]
    linear_combination v.z * hsc

/-- Claim C3: each orbit tick adds `speed * dt` to the angle and writes the
point `(r cos angle, 0, r sin angle)` rotated by `tilt` radians about the Z
axis as the electron's position; with `angle = 0, r = 2, tilt = 0` the
position is `(2, 0, 0)`, and after advancing the angle by `π/2` it is
`(0, 0, 2)` (exact over the reals). -/
theorem orbit_position_formula (dt tilt : ℝ) (s : OrbitState) :
    (orbit_electron_system dt tilt s).angle = s.angle + orbitSpeed * dt ∧
    (orbit_electron_system dt tilt s).translation =
      rotZ tilt ⟨orbitRadius * Real.cos (s.angle + orbitSpeed * dt), 0,
        orbitRadius * Real.sin (s.angle + orbitSpeed * dt)⟩ ∧
    (orbit_electron_system 0 0 ⟨0, ⟨[], 5000⟩, ⟨2, 0, 0⟩⟩).translation = ⟨2, 0, 0⟩ ∧
    (orbit_electron_system (Real.pi / 2) 0 ⟨0, ⟨[], 5000⟩, ⟨2, 0, 0⟩⟩).translation =
      ⟨0, 0, 2⟩ := by
  refine ⟨rfl, rotate_fromAxisAngle_z tilt _, ?_, ?_⟩
  · show Quat.rotate (Quat.fromAxisAngle ⟨0, 0, 1⟩ 0)
      ⟨orbitRadius * Real.cos (0 + orbitSpeed * 0), 0,
       orbitRadius * Real.sin (0 + orbitSpeed * 0)⟩ = (⟨2, 0, 0⟩ : Vec3)
    rw [rotate_fromAxisAngle_z]
    norm_num [rotZ, orbitRadius, orbitSpeed]
  · show Quat.rotate (Quat.fromAxisAngle ⟨0, 0, 1⟩ 0)
      ⟨orbitRadius * Real.cos (0 + orbitSpeed * (Real.pi / 2)), 0,
       orbitRadius * Real.sin (0 + orbitSpeed * (Real.pi / 2))⟩ = (⟨0, 0, 2⟩ : Vec3)
    rw [rotate_fromAxisAngle_z]
    norm_num [rotZ, orbitRadius, orbitSpeed, Real.cos_pi_div_two, Real.sin_pi_div_two]

/-! ### The trace ends with the electron's position -/

theorem tracePush_getLast (t : ElectronTrace) (p : Vec3) (h : 1 ≤ t.max_points) :
    (tracePush t p).points ≠ [] ∧ (tracePush t p).points.getLast? = some p := by
  by_cases hc : t.points.length + 1 > t.max_points
  · rw [tracePush_points_of_gt t p hc]
    cases hpt : t.points with
    | nil =>
      exfalso
      rw [hpt] at hc
      simp at hc
      omega
    | cons a rest =>
      rw [show ((a :: rest : List Vec3) ++ [p]).tail = rest ++ [p] from rfl]
      constructor
      · simp
      · simp [List.getLast?_concat]
  · rw [tracePush_points_of_le t p (by omega)]
    constructor
    · simp
    · simp [List.getLast?_concat]

/-- Claim C9: after every orbit tick (with a positive trace capacity, as the
program configures) the trace is non-empty and its most recent point is
exactly the position written to the electron's transform. -/
theorem orbit_trace_last (dt tilt : ℝ) (s : OrbitState)
    (h : 1 ≤ s.trace.max_points) :
    (orbit_electron_system dt tilt s).trace.points ≠ [] ∧
    (orbit_electron_system dt tilt s).trace.points.getLast? =
      some (orbit_electron_system dt tilt s).translation := by
  exact tracePush_getLast s.trace _ h

/-- Witness for C9: one tick with `dt = 1` from the startup state. -/
theorem orbit_trace_last_witness :
    1 ≤ (OrbitState.mk 0 ⟨[], 5000⟩ ⟨2, 0, 0⟩).trace.max_points ∧
    ((orbit_electron_system 1 0 ⟨0, ⟨[], 5000⟩, ⟨2, 0, 0⟩⟩).trace.points ≠ [] ∧
     (orbit_electron_system 1 0 ⟨0, ⟨[], 5000⟩, ⟨2, 0, 0⟩⟩).trace.points.getLast? =
       some (orbit_electron_system 1 0 ⟨0, ⟨[], 5000⟩, ⟨2, 0, 0⟩⟩).translation) :=
  ⟨by norm_num, orbit_trace_last 1 0 ⟨0, ⟨[], 5000⟩, ⟨2, 0, 0⟩⟩ (by norm_num)⟩

/-! ### Grid toggle lemmas -/

theorem gridRun_held (n : ℕ) : ∀ g : Grid,
    gridRun true (List.replicate n true) g = g := by
  induction n with
  | zero => intro g; rfl
  | succ m ih =>
    intro g
    have step : gridRun true (List.replicate (m + 1) true) g =
        gridRun true (List.replicate m true) g := rfl
    rw [step]
    exact ih g

/-- Claim C7: the grid's `enabled` flag flips exactly on a just-pressed edge
of the toggle key and is otherwise untouched; pressing the key once flips the
flag, and holding it down for any further number of ticks without a release
produces no further edges, so the flag stays flipped. -/
theorem grid_toggle_edge_trigger (g : Grid) (n : ℕ) :
    (gridTick true g).enabled = !g.enabled ∧
    gridTick false g = g ∧
    (gridRun false (List.replicate (n + 1) true) g).enabled = !g.enabled := by
  refine ⟨rfl, rfl, ?_⟩
  have step : gridRun false (List.replicate (n + 1) true) g =
      gridRun true (List.replicate n true) (gridTick true g) := rfl
  rw [step, gridRun_held]
  rfl

/-- Claim C10: a grid tick never changes the `size` or `cell_size` fields,
whatever the key state; only `enabled` is ever written. -/
theorem grid_tick_frame (jp : Bool) (g : Grid) :
    (gridTick jp g).size = g.size ∧ (gridTick jp g).cell_size = g.cell_size := by
  cases jp <;> exact ⟨rfl, rfl⟩

/-! ### Camera pitch clamp lemmas -/

theorem clampR_mem (lo hi x : ℝ) (h : lo ≤ hi) :
    lo ≤ clampR lo hi x ∧ clampR lo hi x ≤ hi := by
  unfold clampR
  split
  · exact ⟨le_refl lo, h⟩
  · split
    · exact ⟨h, le_refl hi⟩
    · rename_i h1 h2
      constructor <;> linarith [not_lt.mp h1, not_lt.mp h2]

theorem clampR_of_mem (lo hi x : ℝ) (h1 : lo ≤ x) (h2 : x ≤ hi) :
    clampR lo hi x = x := by
  unfold clampR
  rw [if_neg (by linarith), if_neg (by linarith)]

theorem fly_pitch_eq (dt : ℝ) (keys : CamKeys) (tr : Transform3) (cam : FlyCamera) :
    (fly_camera_controller dt keys tr cam).2.pitch =
      clampR (-1.54) 1.54
        (if keys.arrowDown then
          (if keys.arrowUp then cam.pitch + camRotSpeed * dt else cam.pitch) -
            camRotSpeed * dt
         else if keys.arrowUp then cam.pitch + camRotSpeed * dt else cam.pitch) := rfl

theorem camRun_pitch_aux (inputs : List (ℝ × CamKeys)) :
    ∀ s : Transform3 × FlyCamera,
    -1.54 ≤ s.2.pitch ∧ s.2.pitch ≤ 1.54 → ∀ n : ℕ,
    -1.54 ≤ (camRun s (inputs.take n)).2.pitch ∧
      (camRun s (inputs.take n)).2.pitch ≤ 1.54 := by
  induction inputs with
  | nil =>
    intro s h n
    simpa [camRun] using h
  | cons i is ih =>
    intro s h n
    cases n with
    | zero => simpa [camRun] using h
    | succ m =>
      have step : camRun s ((i :: is).take (m + 1)) =
          camRun (fly_camera_controller i.1 i.2 s.1 s.2) (is.take m) := rfl
      rw [step]
      exact ih (fly_camera_controller i.1 i.2 s.1 s.2)
        (by rw [fly_pitch_eq]; exact clampR_mem _ _ _ (by norm_num)) m

/-- Claim C5: starting from a pitch in `[-1.54, 1.54]`, the pitch stays in
that closed interval after any number of controller ticks, whatever keys are
pressed and for any delta times. -/
theorem cam_pitch_invariant (s : Transform3 × FlyCamera)
    (inputs : List (ℝ × CamKeys))
    (h : -1.54 ≤ s.2.pitch ∧ s.2.pitch ≤ 1.54) :
    ∀ n : ℕ, -1.54 ≤ (camRun s (inputs.take n)).2.pitch ∧
      (camRun s (inputs.take n)).2.pitch ≤ 1.54 :=
  camRun_pitch_aux inputs s h

/-- Witness for C5: one tick holding pitch-up from pitch 0. -/
theorem cam_pitch_invariant_witness :
    ((-1.54 : ℝ) ≤
        ((⟨⟨0, 0, 0⟩, ⟨0, 0, 0, 1⟩⟩, ⟨0, 0⟩) : Transform3 × FlyCamera).2.pitch ∧
      ((⟨⟨0, 0, 0⟩, ⟨0, 0, 0, 1⟩⟩, ⟨0, 0⟩) : Transform3 × FlyCamera).2.pitch ≤ 1.54) ∧
    ∀ n : ℕ,
      -1.54 ≤ (camRun ((⟨⟨0, 0, 0⟩, ⟨0, 0, 0, 1⟩⟩, ⟨0, 0⟩) : Transform3 × FlyCamera)
        (([((1 : ℝ),
            (⟨false, false, true, false, false, false, false, false, false, false⟩ :
              CamKeys))]).take n)).2.pitch ∧
      (camRun ((⟨⟨0, 0, 0⟩, ⟨0, 0, 0, 1⟩⟩, ⟨0, 0⟩) : Transform3 × FlyCamera)
        (([((1 : ℝ),
            (⟨false, false, true, false, false, false, false, false, false, false⟩ :
              CamKeys))]).take n)).2.pitch ≤ 1.54 := by
  refine ⟨⟨by norm_num, by norm_num⟩, ?_⟩
  exact cam_pitch_invariant _ _ ⟨by norm_num, by norm_num⟩

/-- Counterexample for C6: holding pitch-up for one tick with `dt = 2` from
pitch 0 drives the pitch to exactly `1.54`, the boundary of the interval, so
the pitch does not lie strictly inside `(-1.54, 1.54)` after every tick. -/
theorem cam_pitch_open_counterexample :
    ¬ (-1.54 < (fly_camera_controller 2
          ⟨false, false, true, false, false, false, false, false, false, false⟩
          ⟨⟨0, 0, 0⟩, ⟨0, 0, 0, 1⟩⟩ ⟨0, 0⟩).2.pitch ∧
       (fly_camera_controller 2
          ⟨false, false, true, false, false, false, false, false, false, false⟩
          ⟨⟨0, 0, 0⟩, ⟨0, 0, 0, 1⟩⟩ ⟨0, 0⟩).2.pitch < 1.54) := by
  have hp : (fly_camera_controller 2
      ⟨false, false, true, false, false, false, false, false, false, false⟩
      ⟨⟨0, 0, 0⟩, ⟨0, 0, 0, 1⟩⟩ ⟨0, 0⟩).2.pitch = 1.54 := by
    rw [fly_pitch_eq]
    norm_num [clampR, camRotSpeed]
  rw [hp]
  norm_num

/-- Claim C6 (amended): after every controller tick the pitch lies in the
closed interval `[-1.54, 1.54]`; the clamp is inclusive, so the endpoints
are attainable. -/
theorem cam_pitch_closed_after_tick (dt : ℝ) (keys : CamKeys) (tr : Transform3)
    (cam : FlyCamera) :
    -1.54 ≤ (fly_camera_controller dt keys tr cam).2.pitch ∧
    (fly_camera_controller dt keys tr cam).2.pitch ≤ 1.54 := by
  rw [fly_pitch_eq]
  exact clampR_mem _ _ _ (by norm_num)

/-! ### Camera movement guard -/

/-- Claim C8: when none of the six movement keys is pressed the accumulated
direction is the zero vector, the positive-length guard fails, and the
camera's position is left unchanged (the zero vector is never normalized). -/
theorem cam_no_movement (dt : ℝ) (keys : CamKeys) (tr : Transform3)
    (cam : FlyCamera)
    (hw : keys.keyW = false) (hs : keys.keyS = false) (ha : keys.keyA = false)
    (hd : keys.keyD = false) (hq : keys.keyQ = false) (he : keys.keyE = false) :
    (fly_camera_controller dt keys tr cam).1.translation = tr.translation := by
  simp only [fly_camera_controller, hw, hs, ha, hd, hq, he]
  simp [Vec3.lengthSquared, Vec3.dot, Vec3.zero]

/-- Witness for C8: rotation keys held but no movement keys; the position is
unchanged. -/
theorem cam_no_movement_witness :
    (⟨true, true, true, true, false, false, false, false, false, false⟩ :
        CamKeys).keyW = false ∧
    (⟨true, true, true, true, false, false, false, false, false, false⟩ :
        CamKeys).keyS = false ∧
    (⟨true, true, true, true, false, false, false, false, false, false⟩ :
        CamKeys).keyA = false ∧
    (⟨true, true, true, true, false, false, false, false, false, false⟩ :
        CamKeys).keyD = false ∧
    (⟨true, true, true, true, false, false, false, false, false, false⟩ :
        CamKeys).keyQ = false ∧
    (⟨true, true, true, true, false, false, false, false, false, false⟩ :
        CamKeys).keyE = false ∧
    (fly_camera_controller 1
      ⟨true, true, true, true, false, false, false, false, false, false⟩
      ⟨⟨5, 5, 5⟩, ⟨0, 0, 0, 1⟩⟩ ⟨0, 0⟩).1.translation = Vec3.mk 5 5 5 := by
  refine ⟨rfl, rfl, rfl, rfl, rfl, rfl, ?_⟩
  exact cam_no_movement 1 _ _ _ rfl rfl rfl rfl rfl rfl

/-! ### Null tick (dt = 0) -/

theorem Vec3.smul_zeroR (v : Vec3) : v.smul 0 = Vec3.zero := by
  apply Vec3.ext <;> simp [Vec3.smul, Vec3.zero]

theorem Vec3.add_zeroR (v : Vec3) : v.add Vec3.zero = v := by
  apply Vec3.ext <;> simp [Vec3.add, Vec3.zero]

theorem Vec3.sub_zeroR (v : Vec3) : v.sub Vec3.zero = v := by
  apply Vec3.ext <;> simp [Vec3.sub, Vec3.zero]

theorem Vec3.lengthSquared_zeroR : Vec3.zero.lengthSquared = 0 := by
  simp [Vec3.lengthSquared, Vec3.dot, Vec3.zero]

theorem gridTick_false (g : Grid) : gridTick false g = g := rfl

theorem fly_camera_null_tick (keys : CamKeys) (tr : Transform3) (cam : FlyCamera)
    (hp : -1.54 ≤ cam.pitch ∧ cam.pitch ≤ 1.54)
    (hr : tr.rotation = Quat.mul (Quat.fromAxisAngle ⟨0, 1, 0⟩ cam.yaw)
      (Quat.fromAxisAngle ⟨1, 0, 0⟩ cam.pitch)) :
    fly_camera_controller 0 keys tr cam = (tr, cam) := by
  have hstep : fly_camera_controller 0 keys tr cam =
      (⟨tr.translation, Quat.mul (Quat.fromAxisAngle ⟨0, 1, 0⟩ cam.yaw)
          (Quat.fromAxisAngle ⟨1, 0, 0⟩ cam.pitch)⟩,
       ⟨cam.yaw, cam.pitch⟩) := by
    simp only [fly_camera_controller, mul_zero, add_zero, sub_zero, ite_self,
      Vec3.smul_zeroR, Vec3.add_zeroR, Vec3.sub_zeroR, Vec3.lengthSquared_zeroR,
      clampR_of_mem _ _ _ hp.1 hp.2]
  rw [hstep, ← hr]

theorem orbit_null_tick (tilt : ℝ) (s : OrbitState)
    (hpos : s.translation = Quat.rotate (Quat.fromAxisAngle ⟨0, 0, 1⟩ tilt)
      ⟨orbitRadius * Real.cos s.angle, 0, orbitRadius * Real.sin s.angle⟩) :
    orbit_electron_system 0 tilt s =
      ⟨s.angle, tracePush s.trace s.translation, s.translation⟩ := by
  simp only [orbit_electron_system, mul_zero, add_zero, ← hpos]

/-- Counterexample for C2: a whole-frame tick with `dt = 0` and unchanged
elapsed time does change state, because the orbit system unconditionally
pushes the (unchanged) electron position into the trace buffer each tick. -/
theorem null_tick_changes_state :
    worldTick 0 0
      ⟨⟨false, false, false, false, false, false, false, false, false, false⟩,
        false⟩
      ⟨0, 0, ⟨[], 5000⟩, ⟨2, 0, 0⟩, ⟨⟨5, 5, 5⟩, ⟨0, 0, 0, 1⟩⟩, ⟨0, 0⟩,
        ⟨false, 10, 1⟩⟩ ≠
    ⟨0, 0, ⟨[], 5000⟩, ⟨2, 0, 0⟩, ⟨⟨5, 5, 5⟩, ⟨0, 0, 0, 1⟩⟩, ⟨0, 0⟩,
      ⟨false, 10, 1⟩⟩ := by
  intro hEq
  have h := congrArg (fun w : World => w.trace.points.length) hEq
  simp [worldTick, orbit_electron_system, tracePush] at h

/-- Claim C2 (amended): a whole-frame tick with `dt = 0` and unchanged
elapsed time leaves the orbit angle, tilt, electron position, camera
yaw/pitch/position/orientation and grid flag unchanged — provided the state
is self-consistent (tilt matches the oscillator at the current elapsed time,
pitch is inside the clamp range, the camera orientation is the one derived
from yaw/pitch, and the electron sits at the position derived from
angle/tilt) and no toggle edge fires — but the trace buffer does change:
the current electron position is appended to it. -/
theorem null_tick_trace_only (elapsed : ℝ) (inp : WorldInput) (w : World)
    (htilt : w.tilt = orbit_tilt_control elapsed)
    (hp : -1.54 ≤ w.fly.pitch ∧ w.fly.pitch ≤ 1.54)
    (hr : w.camera.rotation = Quat.mul (Quat.fromAxisAngle ⟨0, 1, 0⟩ w.fly.yaw)
      (Quat.fromAxisAngle ⟨1, 0, 0⟩ w.fly.pitch))
    (hpos : w.electron = Quat.rotate (Quat.fromAxisAngle ⟨0, 0, 1⟩ w.tilt)
      ⟨orbitRadius * Real.cos w.angle, 0, orbitRadius * Real.sin w.angle⟩)
    (hkey : inp.spaceJustPressed = false) :
    worldTick 0 elapsed inp w = { w with trace := tracePush w.trace w.electron } := by
  have hcam := fly_camera_null_tick inp.keys w.camera w.fly hp hr
  have horb := orbit_null_tick w.tilt ⟨w.angle, w.trace, w.electron⟩ (by simpa using hpos)
  simp only [worldTick, hkey, hcam, horb, gridTick_false]
  rw [← htilt]

/-- Witness for C2 (amended): the startup state at `elapsed = 0` with no
input. -/
theorem null_tick_trace_only_witness :
    ((0 : ℝ) = orbit_tilt_control 0 ∧
     ((-1.54 : ℝ) ≤ (FlyCamera.mk 0 0).pitch ∧ (FlyCamera.mk 0 0).pitch ≤ 1.54) ∧
     (Transform3.mk ⟨5, 5, 5⟩ ⟨0, 0, 0, 1⟩).rotation =
       Quat.mul (Quat.fromAxisAngle ⟨0, 1, 0⟩ (FlyCamera.mk 0 0).yaw)
         (Quat.fromAxisAngle ⟨1, 0, 0⟩ (FlyCamera.mk 0 0).pitch) ∧
     (Vec3.mk 2 0 0) = Quat.rotate (Quat.fromAxisAngle ⟨0, 0, 1⟩ 0)
       ⟨orbitRadius * Real.cos 0, 0, orbitRadius * Real.sin 0⟩) ∧
    worldTick 0 0
      ⟨⟨false, false, false, false, false, false, false, false, false, false⟩,
        false⟩
      ⟨0, 0, ⟨[⟨2, 0, 0⟩], 5000⟩, ⟨2, 0, 0⟩, ⟨⟨5, 5, 5⟩, ⟨0, 0, 0, 1⟩⟩, ⟨0, 0⟩,
        ⟨true, 10, 1⟩⟩ =
      ⟨0, 0, tracePush ⟨[⟨2, 0, 0⟩], 5000⟩ ⟨2, 0, 0⟩, ⟨2, 0, 0⟩,
        ⟨⟨5, 5, 5⟩, ⟨0, 0, 0, 1⟩⟩, ⟨0, 0⟩, ⟨true, 10, 1⟩⟩ := by
  have h1 : (0 : ℝ) = orbit_tilt_control 0 := by
    norm_num [orbit_tilt_control, tiltAmplitude, tiltSpeed]
  have h2 : (-1.54 : ℝ) ≤ (FlyCamera.mk 0 0).pitch ∧
      (FlyCamera.mk 0 0).pitch ≤ 1.54 := by norm_num
  have h3 : (Transform3.mk ⟨5, 5, 5⟩ ⟨0, 0, 0, 1⟩).rotation =
      Quat.mul (Quat.fromAxisAngle ⟨0, 1, 0⟩ (FlyCamera.mk 0 0).yaw)
        (Quat.fromAxisAngle ⟨1, 0, 0⟩ (FlyCamera.mk 0 0).pitch) := by
    norm_num [Quat.mul, Quat.fromAxisAngle]
  have h4 : (Vec3.mk 2 0 0) = Quat.rotate (Quat.fromAxisAngle ⟨0, 0, 1⟩ 0)
      ⟨orbitRadius * Real.cos 0, 0, orbitRadius * Real.sin 0⟩ := by
    norm_num [Quat.rotate, Quat.fromAxisAngle, Vec3.smul, Vec3.dot, Vec3.cross,
      Vec3.add, orbitRadius]
  exact ⟨⟨h1, h2, h3, h4⟩,
    null_tick_trace_only 0
      ⟨⟨false, false, false, false, false, false, false, false, false, false⟩,
        false⟩
      ⟨0, 0, ⟨[⟨2, 0, 0⟩], 5000⟩, ⟨2, 0, 0⟩, ⟨⟨5, 5, 5⟩, ⟨0, 0, 0, 1⟩⟩, ⟨0, 0⟩,
        ⟨true, 10, 1⟩⟩ h1 h2 h3 h4 rfl⟩

end AtomModel
